import Mathlib

/-!
Verification of the cpmai file-processing pipeline.

This file gives a shallow embedding, in Lean, of the core of the cpmai
repository: the Gemini/OpenAI AI-service adapters and their response
repair/parse stage (`lambda_functions/process_project_files_lambda/ai_service.py`),
the file-processing orchestrator (`service.py`), the Lambda controller
(`controller.py`), the Mongo chat retrieval pipeline
(`src/domains/chat/pipelines.py`) and the project-status flow
(`src/domains/project/flows.py`), together with proofs and refutations of
the specified properties.

Python strings are modelled as `List Char`, byte strings as `List Nat`,
and JSON values (the results of `orjson.loads`) as the inductive `JVal`.
External collaborators (S3, MongoDB, the generative-model backends, the
`json_repair` library) are parameters of the embedded functions.
-/

/-- JSON whitespace, as recognised by `str.strip()` and by JSON parsers
for the characters that occur around JSON tokens. -/
def isWs (c : Char) : Bool :=
  c = ' ' || c = '\t' || c = '\n' || c = '\r'

/-- The backtick character, used by Markdown code fences. -/
def btick : Char := Char.ofNat 96

/-- A JSON value as produced by `orjson.loads`.  Number and string
contents are kept as their raw lexemes: the embedding does not model
float rounding or escape decoding, which no claim depends on. -/
inductive JVal : Type where
  | null : JVal
  | bool (b : Bool) : JVal
  | num (lex : List Char) : JVal
  | str (s : List Char) : JVal
  | arr (xs : List JVal) : JVal
  | obj (kvs : List (List Char × JVal)) : JVal

/-- Strip an expected leading run of characters: `stripPfx p l = some r`
iff `l = p ++ r`. -/
def stripPfx : List Char → List Char → Option (List Char)
  | [], l => some l
  | _ :: _, [] => none
  | p :: ps, c :: cs => if p = c then stripPfx ps cs else none

/-- Parse the body of a JSON string after the opening quote, keeping the
raw (escaped) characters; returns the body and the input after the
closing quote.  A backslash always protects the following character. -/
def parseStrBody : List Char → Option (List Char × List Char)
  | [] => none
  | c :: cs =>
    if c = '"' then some ([], cs)
    else if c = '\\' then
      match cs with
      | [] => none
      | d :: ds => (parseStrBody ds).map (fun p => (c :: d :: p.1, p.2))
    else (parseStrBody cs).map (fun p => (c :: p.1, p.2))

/-- Characters that may start a JSON number. -/
def isNumStart (c : Char) : Bool := c.isDigit || c = '-'

/-- Characters that may occur in a JSON number lexeme. -/
def isNumChar (c : Char) : Bool :=
  c.isDigit || c = '-' || c = '+' || c = '.' || c = 'e' || c = 'E'

def trueLit : List Char := ['t', 'r', 'u', 'e']
def falseLit : List Char := ['f', 'a', 'l', 's', 'e']
def nullLit : List Char := ['n', 'u', 'l', 'l']

mutual

/-- Recursive-descent JSON value parser (the model of `orjson.loads`):
skips leading whitespace, parses one JSON value, and returns it with the
unconsumed remainder (trailing whitespace is not consumed).  `fuel`
bounds the recursion depth; all theorems quantify over it. -/
def parseVal : Nat → List Char → Option (JVal × List Char)
  | 0, _ => none
  | Nat.succ n, l =>
    match l.dropWhile isWs with
    | [] => none
    | c :: r =>
      if c = '"' then
        (parseStrBody r).map (fun p => (JVal.str p.1, p.2))
      else if c = '[' then
        match r.dropWhile isWs with
        | [] => (parseElems n r).map (fun p => (JVal.arr p.1, p.2))
        | d :: rest =>
          if d = ']' then some (JVal.arr [], rest)
          else (parseElems n r).map (fun p => (JVal.arr p.1, p.2))
      else if c = '{' then
        match r.dropWhile isWs with
        | [] => (parseMembers n r).map (fun p => (JVal.obj p.1, p.2))
        | d :: rest =>
          if d = '}' then some (JVal.obj [], rest)
          else (parseMembers n r).map (fun p => (JVal.obj p.1, p.2))
      else if isNumStart c then
        some (JVal.num ((c :: r).takeWhile isNumChar), (c :: r).dropWhile isNumChar)
      else
        match stripPfx trueLit (c :: r) with
        | some rest => some (JVal.bool true, rest)
        | none =>
          match stripPfx falseLit (c :: r) with
          | some rest => some (JVal.bool false, rest)
          | none =>
            match stripPfx nullLit (c :: r) with
            | some rest => some (JVal.null, rest)
            | none => none

/-- Parse the comma-separated elements of a non-empty JSON array, up to
and including the closing bracket. -/
def parseElems : Nat → List Char → Option (List JVal × List Char)
  | 0, _ => none
  | Nat.succ n, l =>
    match parseVal n l with
    | none => none
    | some (v, r) =>
      match r.dropWhile isWs with
      | [] => none
      | d :: r' =>
        if d = ',' then (parseElems n r').map (fun p => (v :: p.1, p.2))
        else if d = ']' then some ([v], r')
        else none

/-- Parse the comma-separated members of a non-empty JSON object, up to
and including the closing brace. -/
def parseMembers : Nat → List Char → Option (List (List Char × JVal) × List Char)
  | 0, _ => none
  | Nat.succ n, l =>
    match l.dropWhile isWs with
    | [] => none
    | c :: r =>
      if c = '"' then
        match parseStrBody r with
        | none => none
        | some (key, r2) =>
          match r2.dropWhile isWs with
          | [] => none
          | d :: r3 =>
            if d = ':' then
              match parseVal n r3 with
              | none => none
              | some (v, r4) =>
                match r4.dropWhile isWs with
                | [] => none
                | e :: r5 =>
                  if e = ',' then (parseMembers n r5).map (fun p => ((key, v) :: p.1, p.2))
                  else if e = '}' then some ([(key, v)], r5)
                  else none
            else none
      else none

end

/-- Strict JSON parse of a whole text (the model of `orjson.loads`
applied to a complete payload): one value, possibly surrounded by
whitespace, and nothing else. -/
def jsonParse (fuel : Nat) (s : List Char) : Option JVal :=
  match parseVal fuel s with
  | some (v, rest) => if rest.all isWs then some v else none
  | none => none

/-- Append trailing text to the unconsumed remainder of a parse result. -/
def wsExt {α : Type} (o : Option (α × List Char)) (y : List Char) : Option (α × List Char) :=
  o.map (fun p => (p.1, p.2 ++ y))

theorem wsExt_none {α : Type} (y : List Char) : wsExt (α := α) none y = none := rfl

theorem wsExt_some {α : Type} (a : α) (r y : List Char) :
    wsExt (some (a, r)) y = some (a, r ++ y) := rfl

theorem isWs_not_special {c : Char} (h : isWs c = true) :
    c ≠ '"' ∧ c ≠ '\\' ∧ isNumChar c = false := by
  simp only [isWs, Bool.or_eq_true, decide_eq_true_eq] at h
  rcases h with ((h | h) | h) | h <;> subst h <;> exact ⟨by decide, by decide, by decide⟩

theorem parseStrBody_quote (cs : List Char) : parseStrBody ('"' :: cs) = some ([], cs) := by
  rw [parseStrBody.eq_def]
  simp

theorem parseStrBody_backslash (d : Char) (ds : List Char) :
    parseStrBody ('\\' :: d :: ds) =
      (parseStrBody ds).map (fun p => ('\\' :: d :: p.1, p.2)) := by
  rw [parseStrBody.eq_def]
  simp

theorem parseStrBody_backslash_nil : parseStrBody ['\\'] = none := by
  rw [parseStrBody.eq_def]
  simp

theorem parseStrBody_other {c : Char} (h1 : c ≠ '"') (h2 : c ≠ '\\') (cs : List Char) :
    parseStrBody (c :: cs) = (parseStrBody cs).map (fun p => (c :: p.1, p.2)) := by
  rw [parseStrBody.eq_def]
  simp [h1, h2]

theorem dropWhile_ws_all {y : List Char} (hy : y.all isWs = true) :
    y.dropWhile isWs = [] :=
  List.dropWhile_eq_nil_iff.mpr fun x hx => List.all_eq_true.mp hy x hx

theorem dropWhile_ws_append_nil {l y : List Char} (hy : y.all isWs = true)
    (hl : l.dropWhile isWs = []) : (l ++ y).dropWhile isWs = [] := by
  rw [List.dropWhile_append, hl]
  simp [dropWhile_ws_all hy]

theorem dropWhile_ws_append_cons {l y : List Char} {c : Char} {r : List Char}
    (hl : l.dropWhile isWs = c :: r) : (l ++ y).dropWhile isWs = c :: (r ++ y) := by
  rw [List.dropWhile_append, hl]
  simp

theorem stripPfx_self_append (p z : List Char) : stripPfx p (p ++ z) = some z := by
  induction p with
  | nil => rfl
  | cons q qs ih => simp [stripPfx, ih]

theorem stripPfx_append_ws {y : List Char} (hy : y.all isWs = true) :
    ∀ (p l : List Char), p.all (fun c => !isWs c) = true →
      stripPfx p (l ++ y) = (stripPfx p l).map (fun r => r ++ y) := by
  intro p
  induction p with
  | nil => intro l _; rfl
  | cons q qs ih =>
    intro l hp
    rw [List.all_cons, Bool.and_eq_true] at hp
    obtain ⟨hq, hqs⟩ := hp
    cases l with
    | nil =>
      simp only [List.nil_append]
      cases y with
      | nil => rfl
      | cons w ws =>
        have hw : isWs w = true := List.all_eq_true.mp hy w (by simp)
        have hne : q ≠ w := by
          intro hqw
          rw [hqw, hw] at hq
          simp at hq
        simp [stripPfx, hne]
    | cons a as =>
      simp only [List.cons_append, stripPfx]
      by_cases hqa : q = a
      · simpa [hqa] using ih as hqs
      · simp [hqa]

theorem parseStrBody_ws_none : ∀ {y : List Char}, y.all isWs = true → parseStrBody y = none := by
  intro y
  induction y with
  | nil => intro _; rfl
  | cons c cs ih =>
    intro hy
    rw [List.all_cons, Bool.and_eq_true] at hy
    obtain ⟨hc, hcs⟩ := hy
    obtain ⟨h1, h2, _⟩ := isWs_not_special hc
    rw [parseStrBody_other h1 h2, ih hcs]
    rfl

theorem parseStrBody_append_ws {y : List Char} (hy : y.all isWs = true) :
    ∀ l, parseStrBody (l ++ y) = wsExt (parseStrBody l) y := by
  intro l
  induction l using parseStrBody.induct with
  | case1 =>
    simp only [List.nil_append, parseStrBody_ws_none hy]
    rfl
  | case2 ds =>
    simp [List.cons_append, parseStrBody_quote, wsExt]
  | case3 h =>
    cases y with
    | nil => rfl
    | cons d ds =>
      have hds : ds.all isWs = true := by
        rw [List.all_cons, Bool.and_eq_true] at hy
        exact hy.2
      show parseStrBody ('\\' :: d :: ds) = wsExt (parseStrBody ['\\']) (d :: ds)
      rw [parseStrBody_backslash, parseStrBody_ws_none hds, parseStrBody_backslash_nil]
      rfl
  | case4 d ds h ih =>
    show parseStrBody ('\\' :: d :: (ds ++ y)) = wsExt (parseStrBody ('\\' :: d :: ds)) y
    rw [parseStrBody_backslash, parseStrBody_backslash, ih]
    cases hds : parseStrBody ds <;> simp [wsExt]
  | case5 d ds h1 h2 ih =>
    show parseStrBody (d :: (ds ++ y)) = wsExt (parseStrBody (d :: ds)) y
    rw [parseStrBody_other h1 h2, parseStrBody_other h1 h2, ih]
    cases hds : parseStrBody ds <;> simp [wsExt]

theorem takeWhile_num_ws_nil {y : List Char} (hy : y.all isWs = true) :
    y.takeWhile isNumChar = [] := by
  cases y with
  | nil => rfl
  | cons w ws =>
    have hw : isWs w = true := List.all_eq_true.mp hy w (by simp)
    obtain ⟨_, _, h3⟩ := isWs_not_special hw
    simp [List.takeWhile_cons, h3]

theorem dropWhile_num_ws_self {y : List Char} (hy : y.all isWs = true) :
    y.dropWhile isNumChar = y := by
  cases y with
  | nil => rfl
  | cons w ws =>
    have hw : isWs w = true := List.all_eq_true.mp hy w (by simp)
    obtain ⟨_, _, h3⟩ := isWs_not_special hw
    simp [List.dropWhile_cons, h3]

theorem takeWhile_num_append {y : List Char} (hy : y.all isWs = true) :
    ∀ x, (x ++ y).takeWhile isNumChar = x.takeWhile isNumChar := by
  intro x
  induction x with
  | nil => simpa using takeWhile_num_ws_nil hy
  | cons a as ih =>
    by_cases h : isNumChar a <;> simp [List.takeWhile_cons, h, ih]

theorem dropWhile_num_append {y : List Char} (hy : y.all isWs = true) :
    ∀ x, (x ++ y).dropWhile isNumChar = x.dropWhile isNumChar ++ y := by
  intro x
  induction x with
  | nil => simpa using dropWhile_num_ws_self hy
  | cons a as ih =>
    by_cases h : isNumChar a <;> simp [List.dropWhile_cons, h, ih]

/-- The keyword (`true`/`false`/`null`) tail of the value parser, split
out for the whitespace lemmas. -/
def kwParse (x : List Char) : Option (JVal × List Char) :=
  match stripPfx trueLit x with
  | some rest => some (JVal.bool true, rest)
  | none =>
    match stripPfx falseLit x with
    | some rest => some (JVal.bool false, rest)
    | none =>
      match stripPfx nullLit x with
      | some rest => some (JVal.null, rest)
      | none => none

theorem kwParse_append_ws {y : List Char} (hy : y.all isWs = true) (x : List Char) :
    kwParse (x ++ y) = wsExt (kwParse x) y := by
  unfold kwParse
  rw [stripPfx_append_ws hy trueLit x (by decide),
    stripPfx_append_ws hy falseLit x (by decide),
    stripPfx_append_ws hy nullLit x (by decide)]
  cases h1 : stripPfx trueLit x <;> cases h2 : stripPfx falseLit x <;>
    cases h3 : stripPfx nullLit x <;> simp [wsExt]

theorem parseVal_succ_nil {n : Nat} {l : List Char} (h : l.dropWhile isWs = []) :
    parseVal (Nat.succ n) l = none := by
  rw [parseVal.eq_2, h]

theorem parseVal_succ_quote {n : Nat} {l r : List Char}
    (h : l.dropWhile isWs = '"' :: r) :
    parseVal (Nat.succ n) l = (parseStrBody r).map (fun p => (JVal.str p.1, p.2)) := by
  rw [parseVal.eq_2, h]
  simp

theorem parseVal_succ_arr_close {n : Nat} {l r rest : List Char}
    (h : l.dropWhile isWs = '[' :: r) (h2 : r.dropWhile isWs = ']' :: rest) :
    parseVal (Nat.succ n) l = some (JVal.arr [], rest) := by
  rw [parseVal.eq_2, h]
  simp [h2]

theorem parseVal_succ_arr_nil {n : Nat} {l r : List Char}
    (h : l.dropWhile isWs = '[' :: r) (h2 : r.dropWhile isWs = []) :
    parseVal (Nat.succ n) l = (parseElems n r).map (fun p => (JVal.arr p.1, p.2)) := by
  rw [parseVal.eq_2, h]
  simp [h2]

theorem parseVal_succ_arr_elems {n : Nat} {l r rest : List Char} {d : Char}
    (h : l.dropWhile isWs = '[' :: r) (h2 : r.dropWhile isWs = d :: rest)
    (hd : d ≠ ']') :
    parseVal (Nat.succ n) l = (parseElems n r).map (fun p => (JVal.arr p.1, p.2)) := by
  rw [parseVal.eq_2, h]
  simp [h2, hd]

theorem parseVal_succ_obj_close {n : Nat} {l r rest : List Char}
    (h : l.dropWhile isWs = '{' :: r) (h2 : r.dropWhile isWs = '}' :: rest) :
    parseVal (Nat.succ n) l = some (JVal.obj [], rest) := by
  rw [parseVal.eq_2, h]
  simp [h2]

theorem parseVal_succ_obj_nil {n : Nat} {l r : List Char}
    (h : l.dropWhile isWs = '{' :: r) (h2 : r.dropWhile isWs = []) :
    parseVal (Nat.succ n) l = (parseMembers n r).map (fun p => (JVal.obj p.1, p.2)) := by
  rw [parseVal.eq_2, h]
  simp [h2]

theorem parseVal_succ_obj_members {n : Nat} {l r rest : List Char} {d : Char}
    (h : l.dropWhile isWs = '{' :: r) (h2 : r.dropWhile isWs = d :: rest)
    (hd : d ≠ '}') :
    parseVal (Nat.succ n) l = (parseMembers n r).map (fun p => (JVal.obj p.1, p.2)) := by
  rw [parseVal.eq_2, h]
  simp [h2, hd]

theorem parseVal_succ_num {n : Nat} {l r : List Char} {c : Char}
    (h : l.dropWhile isWs = c :: r) (h1 : c ≠ '"') (h2 : c ≠ '[') (h3 : c ≠ '{')
    (h4 : isNumStart c = true) :
    parseVal (Nat.succ n) l =
      some (JVal.num ((c :: r).takeWhile isNumChar), (c :: r).dropWhile isNumChar) := by
  rw [parseVal.eq_2, h]
  simp [h1, h2, h3, h4]

theorem parseVal_succ_kw {n : Nat} {l r : List Char} {c : Char}
    (h : l.dropWhile isWs = c :: r) (h1 : c ≠ '"') (h2 : c ≠ '[') (h3 : c ≠ '{')
    (h4 : isNumStart c = false) :
    parseVal (Nat.succ n) l = kwParse (c :: r) := by
  rw [parseVal.eq_2, h]
  simp [h1, h2, h3, h4, kwParse]

theorem parseElems_succ_none {n : Nat} {l : List Char} (h : parseVal n l = none) :
    parseElems (Nat.succ n) l = none := by
  rw [parseElems.eq_2, h]

theorem parseElems_succ_stop {n : Nat} {l r : List Char} {v : JVal}
    (h : parseVal n l = some (v, r)) (h2 : r.dropWhile isWs = []) :
    parseElems (Nat.succ n) l = none := by
  rw [parseElems.eq_2, h]
  simp [h2]

theorem parseElems_succ_comma {n : Nat} {l r r' : List Char} {v : JVal}
    (h : parseVal n l = some (v, r)) (h2 : r.dropWhile isWs = ',' :: r') :
    parseElems (Nat.succ n) l = (parseElems n r').map (fun p => (v :: p.1, p.2)) := by
  rw [parseElems.eq_2, h]
  simp [h2]

theorem parseElems_succ_close {n : Nat} {l r r' : List Char} {v : JVal}
    (h : parseVal n l = some (v, r)) (h2 : r.dropWhile isWs = ']' :: r') :
    parseElems (Nat.succ n) l = some ([v], r') := by
  rw [parseElems.eq_2, h]
  simp [h2]

theorem parseElems_succ_bad {n : Nat} {l r r' : List Char} {v : JVal} {d : Char}
    (h : parseVal n l = some (v, r)) (h2 : r.dropWhile isWs = d :: r')
    (hd1 : d ≠ ',') (hd2 : d ≠ ']') :
    parseElems (Nat.succ n) l = none := by
  rw [parseElems.eq_2, h]
  simp [h2, hd1, hd2]

theorem parseMembers_succ_nil {n : Nat} {l : List Char} (h : l.dropWhile isWs = []) :
    parseMembers (Nat.succ n) l = none := by
  rw [parseMembers.eq_2, h]

theorem parseMembers_succ_noquote {n : Nat} {l r : List Char} {c : Char}
    (h : l.dropWhile isWs = c :: r) (hc : c ≠ '"') :
    parseMembers (Nat.succ n) l = none := by
  rw [parseMembers.eq_2, h]
  simp [hc]

theorem parseMembers_succ_badkey {n : Nat} {l r : List Char}
    (h : l.dropWhile isWs = '"' :: r) (h2 : parseStrBody r = none) :
    parseMembers (Nat.succ n) l = none := by
  rw [parseMembers.eq_2, h]
  simp [h2]

theorem parseMembers_succ_nocolon_nil {n : Nat} {l r key r2 : List Char}
    (h : l.dropWhile isWs = '"' :: r) (h2 : parseStrBody r = some (key, r2))
    (h3 : r2.dropWhile isWs = []) :
    parseMembers (Nat.succ n) l = none := by
  rw [parseMembers.eq_2, h]
  simp [h2, h3]

theorem parseMembers_succ_nocolon {n : Nat} {l r key r2 r3 : List Char} {d : Char}
    (h : l.dropWhile isWs = '"' :: r) (h2 : parseStrBody r = some (key, r2))
    (h3 : r2.dropWhile isWs = d :: r3) (hd : d ≠ ':') :
    parseMembers (Nat.succ n) l = none := by
  rw [parseMembers.eq_2, h]
  simp [h2, h3, hd]

theorem parseMembers_succ_noval {n : Nat} {l r key r2 r3 : List Char}
    (h : l.dropWhile isWs = '"' :: r) (h2 : parseStrBody r = some (key, r2))
    (h3 : r2.dropWhile isWs = ':' :: r3) (h4 : parseVal n r3 = none) :
    parseMembers (Nat.succ n) l = none := by
  rw [parseMembers.eq_2, h]
  simp [h2, h3, h4]

theorem parseMembers_succ_stop {n : Nat} {l r key r2 r3 r4 : List Char} {v : JVal}
    (h : l.dropWhile isWs = '"' :: r) (h2 : parseStrBody r = some (key, r2))
    (h3 : r2.dropWhile isWs = ':' :: r3) (h4 : parseVal n r3 = some (v, r4))
    (h5 : r4.dropWhile isWs = []) :
    parseMembers (Nat.succ n) l = none := by
  rw [parseMembers.eq_2, h]
  simp [h2, h3, h4, h5]

theorem parseMembers_succ_comma {n : Nat} {l r key r2 r3 r4 r5 : List Char} {v : JVal}
    (h : l.dropWhile isWs = '"' :: r) (h2 : parseStrBody r = some (key, r2))
    (h3 : r2.dropWhile isWs = ':' :: r3) (h4 : parseVal n r3 = some (v, r4))
    (h5 : r4.dropWhile isWs = ',' :: r5) :
    parseMembers (Nat.succ n) l =
      (parseMembers n r5).map (fun p => ((key, v) :: p.1, p.2)) := by
  rw [parseMembers.eq_2, h]
  simp [h2, h3, h4, h5]

theorem parseMembers_succ_close {n : Nat} {l r key r2 r3 r4 r5 : List Char} {v : JVal}
    (h : l.dropWhile isWs = '"' :: r) (h2 : parseStrBody r = some (key, r2))
    (h3 : r2.dropWhile isWs = ':' :: r3) (h4 : parseVal n r3 = some (v, r4))
    (h5 : r4.dropWhile isWs = '}' :: r5) :
    parseMembers (Nat.succ n) l = some ([(key, v)], r5) := by
  rw [parseMembers.eq_2, h]
  simp [h2, h3, h4, h5]

theorem parseMembers_succ_bad {n : Nat} {l r key r2 r3 r4 r5 : List Char} {v : JVal} {e : Char}
    (h : l.dropWhile isWs = '"' :: r) (h2 : parseStrBody r = some (key, r2))
    (h3 : r2.dropWhile isWs = ':' :: r3) (h4 : parseVal n r3 = some (v, r4))
    (h5 : r4.dropWhile isWs = e :: r5) (he1 : e ≠ ',') (he2 : e ≠ '}') :
    parseMembers (Nat.succ n) l = none := by
  rw [parseMembers.eq_2, h]
  simp [h2, h3, h4, h5, he1, he2]

/-- Appending all-whitespace text to a parser input extends the
unconsumed remainder by that text and changes nothing else, for all
three mutually recursive parsers at any fuel. -/
theorem parse_append_ws {y : List Char} (hy : y.all isWs = true) :
    ∀ n : Nat,
      (∀ l, parseVal n (l ++ y) = wsExt (parseVal n l) y) ∧
      (∀ l, parseElems n (l ++ y) = wsExt (parseElems n l) y) ∧
      (∀ l, parseMembers n (l ++ y) = wsExt (parseMembers n l) y) := by
  intro n
  induction n with
  | zero => exact ⟨fun _ => rfl, fun _ => rfl, fun _ => rfl⟩
  | succ n ih =>
    obtain ⟨ihV, ihE, ihM⟩ := ih
    refine ⟨?_, ?_, ?_⟩
    · intro l
      cases hl : l.dropWhile isWs with
      | nil =>
        rw [parseVal_succ_nil (dropWhile_ws_append_nil hy hl), parseVal_succ_nil hl]
        rfl
      | cons c r =>
        have hL := dropWhile_ws_append_cons (y := y) hl
        by_cases hc1 : c = '"'
        · subst hc1
          rw [parseVal_succ_quote hL, parseVal_succ_quote hl, parseStrBody_append_ws hy r]
          cases parseStrBody r <;> simp [wsExt]
        · by_cases hc2 : c = '['
          · subst hc2
            cases hr : r.dropWhile isWs with
            | nil =>
              rw [parseVal_succ_arr_nil hL (dropWhile_ws_append_nil hy hr),
                parseVal_succ_arr_nil hl hr, ihE r]
              cases parseElems n r <;> simp [wsExt]
            | cons d rest =>
              by_cases hd : d = ']'
              · subst hd
                rw [parseVal_succ_arr_close hL (dropWhile_ws_append_cons hr),
                  parseVal_succ_arr_close hl hr, wsExt_some]
              · rw [parseVal_succ_arr_elems hL (dropWhile_ws_append_cons hr) hd,
                  parseVal_succ_arr_elems hl hr hd, ihE r]
                cases parseElems n r <;> simp [wsExt]
          · by_cases hc3 : c = '{'
            · subst hc3
              cases hr : r.dropWhile isWs with
              | nil =>
                rw [parseVal_succ_obj_nil hL (dropWhile_ws_append_nil hy hr),
                  parseVal_succ_obj_nil hl hr, ihM r]
                cases parseMembers n r <;> simp [wsExt]
              | cons d rest =>
                by_cases hd : d = '}'
                · subst hd
                  rw [parseVal_succ_obj_close hL (dropWhile_ws_append_cons hr),
                    parseVal_succ_obj_close hl hr, wsExt_some]
                · rw [parseVal_succ_obj_members hL (dropWhile_ws_append_cons hr) hd,
                    parseVal_succ_obj_members hl hr hd, ihM r]
                  cases parseMembers n r <;> simp [wsExt]
            · by_cases hc4 : isNumStart c = true
              · rw [parseVal_succ_num hL hc1 hc2 hc3 hc4,
                  parseVal_succ_num hl hc1 hc2 hc3 hc4, wsExt_some,
                  show c :: (r ++ y) = (c :: r) ++ y from rfl,
                  takeWhile_num_append hy, dropWhile_num_append hy]
              · have hc4' : isNumStart c = false := by simpa using hc4
                rw [parseVal_succ_kw hL hc1 hc2 hc3 hc4',
                  parseVal_succ_kw hl hc1 hc2 hc3 hc4',
                  show c :: (r ++ y) = (c :: r) ++ y from rfl,
                  kwParse_append_ws hy]
    · intro l
      cases hv : parseVal n l with
      | none =>
        have hv2 : parseVal n (l ++ y) = none := by rw [ihV l, hv]; rfl
        rw [parseElems_succ_none hv2, parseElems_succ_none hv]
        rfl
      | some p =>
        obtain ⟨v, r⟩ := p
        have hv2 : parseVal n (l ++ y) = some (v, r ++ y) := by rw [ihV l, hv]; rfl
        cases hr : r.dropWhile isWs with
        | nil =>
          rw [parseElems_succ_stop hv2 (dropWhile_ws_append_nil hy hr),
            parseElems_succ_stop hv hr]
          rfl
        | cons d r' =>
          by_cases hd1 : d = ','
          · subst hd1
            rw [parseElems_succ_comma hv2 (dropWhile_ws_append_cons hr),
              parseElems_succ_comma hv hr, ihE r']
            cases parseElems n r' <;> simp [wsExt]
          · by_cases hd2 : d = ']'
            · subst hd2
              rw [parseElems_succ_close hv2 (dropWhile_ws_append_cons hr),
                parseElems_succ_close hv hr, wsExt_some]
            · rw [parseElems_succ_bad hv2 (dropWhile_ws_append_cons hr) hd1 hd2,
                parseElems_succ_bad hv hr hd1 hd2]
              rfl
    · intro l
      cases hl : l.dropWhile isWs with
      | nil =>
        rw [parseMembers_succ_nil (dropWhile_ws_append_nil hy hl), parseMembers_succ_nil hl]
        rfl
      | cons c r =>
        have hL := dropWhile_ws_append_cons (y := y) hl
        by_cases hc : c = '"'
        · subst hc
          cases hk : parseStrBody r with
          | none =>
            have hk2 : parseStrBody (r ++ y) = none := by
              rw [parseStrBody_append_ws hy r, hk]; rfl
            rw [parseMembers_succ_badkey hL hk2, parseMembers_succ_badkey hl hk]
            rfl
          | some p =>
            obtain ⟨key, r2⟩ := p
            have hk2 : parseStrBody (r ++ y) = some (key, r2 ++ y) := by
              rw [parseStrBody_append_ws hy r, hk]; rfl
            cases hr2 : r2.dropWhile isWs with
            | nil =>
              rw [parseMembers_succ_nocolon_nil hL hk2 (dropWhile_ws_append_nil hy hr2),
                parseMembers_succ_nocolon_nil hl hk hr2]
              rfl
            | cons d r3 =>
              by_cases hd : d = ':'
              · subst hd
                cases hv : parseVal n r3 with
                | none =>
                  have hv2 : parseVal n (r3 ++ y) = none := by rw [ihV r3, hv]; rfl
                  rw [parseMembers_succ_noval hL hk2 (dropWhile_ws_append_cons hr2) hv2,
                    parseMembers_succ_noval hl hk hr2 hv]
                  rfl
                | some q =>
                  obtain ⟨v, r4⟩ := q
                  have hv2 : parseVal n (r3 ++ y) = some (v, r4 ++ y) := by
                    rw [ihV r3, hv]; rfl
                  cases hr4 : r4.dropWhile isWs with
                  | nil =>
                    rw [parseMembers_succ_stop hL hk2 (dropWhile_ws_append_cons hr2) hv2
                        (dropWhile_ws_append_nil hy hr4),
                      parseMembers_succ_stop hl hk hr2 hv hr4]
                    rfl
                  | cons e r5 =>
                    by_cases he1 : e = ','
                    · subst he1
                      rw [parseMembers_succ_comma hL hk2 (dropWhile_ws_append_cons hr2) hv2
                          (dropWhile_ws_append_cons hr4),
                        parseMembers_succ_comma hl hk hr2 hv hr4, ihM r5]
                      cases parseMembers n r5 <;> simp [wsExt]
                    · by_cases he2 : e = '}'
                      · subst he2
                        rw [parseMembers_succ_close hL hk2 (dropWhile_ws_append_cons hr2) hv2
                            (dropWhile_ws_append_cons hr4),
                          parseMembers_succ_close hl hk hr2 hv hr4, wsExt_some]
                      · rw [parseMembers_succ_bad hL hk2 (dropWhile_ws_append_cons hr2) hv2
                            (dropWhile_ws_append_cons hr4) he1 he2,
                          parseMembers_succ_bad hl hk hr2 hv hr4 he1 he2]
                        rfl
              · rw [parseMembers_succ_nocolon hL hk2 (dropWhile_ws_append_cons hr2) hd,
                  parseMembers_succ_nocolon hl hk hr2 hd]
                rfl
        · rw [parseMembers_succ_noquote hL hc, parseMembers_succ_noquote hl hc]
          rfl

theorem parseVal_ws_left {a : List Char} (ha : a.all isWs = true) (n : Nat) (x : List Char) :
    parseVal n (a ++ x) = parseVal n x := by
  cases n with
  | zero => rfl
  | succ n =>
    rw [parseVal.eq_2, parseVal.eq_2, List.dropWhile_append, dropWhile_ws_all ha]
    simp

/-- Python `str.strip()` restricted to leading whitespace. -/
def trimL (l : List Char) : List Char := l.dropWhile isWs

/-- Python `str.strip()` restricted to trailing whitespace. -/
def trimR (l : List Char) : List Char := (l.reverse.dropWhile isWs).reverse

/-- Model of Python `str.strip()`: remove leading and trailing whitespace. -/
def pyStrip (l : List Char) : List Char := trimR (trimL l)

theorem pyStrip_decomp (s : List Char) :
    ∃ a b, s = a ++ pyStrip s ++ b ∧ a.all isWs = true ∧ b.all isWs = true := by
  refine ⟨s.takeWhile isWs, ((trimL s).reverse.takeWhile isWs).reverse, ?_, ?_, ?_⟩
  · conv_lhs => rw [← List.takeWhile_append_dropWhile (p := isWs) (l := s)]
    rw [List.append_assoc]
    congr 1
    show trimL s = pyStrip s ++ ((trimL s).reverse.takeWhile isWs).reverse
    conv_lhs => rw [← List.reverse_reverse (trimL s),
      ← List.takeWhile_append_dropWhile (p := isWs) (l := (trimL s).reverse)]
    rw [List.reverse_append]
    rfl
  · rw [List.all_eq_true]
    intro x hx
    exact List.mem_takeWhile_imp hx
  · rw [List.all_eq_true]
    intro x hx
    rw [List.mem_reverse] at hx
    exact List.mem_takeWhile_imp hx

/-- Whitespace padding around a parseable payload does not change the
strict parse result. -/
theorem jsonParse_pad {a b : List Char} (ha : a.all isWs = true) (hb : b.all isWs = true)
    (n : Nat) (s : List Char) {v : JVal} (h : jsonParse n s = some v) :
    jsonParse n (a ++ s ++ b) = some v := by
  unfold jsonParse at h ⊢
  rw [List.append_assoc, parseVal_ws_left ha, (parse_append_ws hb n).1 s]
  cases hp : parseVal n s with
  | none => rw [hp] at h; exact absurd h (by simp)
  | some p =>
    obtain ⟨w, r⟩ := p
    rw [hp] at h
    simp only at h
    rw [wsExt_some]
    simp only
    have hr : r.all isWs = true := by
      by_contra hc
      rw [if_neg (by simpa using hc)] at h
      exact absurd h (by simp)
    rw [if_pos hr] at h
    rw [if_pos (by rw [List.all_append, hr, hb]; rfl)]
    exact h

/-- Python `str.strip()` does not change the strict parse result of a
parseable payload. -/
theorem jsonParse_pyStrip (n : Nat) (s : List Char) {v : JVal}
    (h : jsonParse n s = some v) : jsonParse n (pyStrip s) = some v := by
  obtain ⟨a, b, hs, ha, hb⟩ := pyStrip_decomp s
  rw [hs] at h
  unfold jsonParse at h ⊢
  rw [List.append_assoc, parseVal_ws_left ha, (parse_append_ws hb n).1 (pyStrip s)] at h
  cases hp : parseVal n (pyStrip s) with
  | none => rw [hp] at h; exact absurd h (by simp [wsExt])
  | some p =>
    obtain ⟨w, r⟩ := p
    rw [hp, wsExt_some] at h
    simp only at h ⊢
    by_cases hrb : (r ++ b).all isWs = true
    · rw [if_pos hrb] at h
      rw [List.all_append, Bool.and_eq_true] at hrb
      rw [if_pos hrb.1]
      exact h
    · rw [if_neg hrb] at h
      exact absurd h (by simp)

/-- Python `str.startswith` on char lists. -/
def startsWithL (p l : List Char) : Bool := (stripPfx p l).isSome

/-- Python `str.endswith` on char lists. -/
def endsWithL (p l : List Char) : Bool := (stripPfx p.reverse l.reverse).isSome

/-- Index of the first occurrence of `pat` in `l`, if any. -/
def firstOccIdx (pat : List Char) : List Char → Option Nat
  | [] => if (stripPfx pat ([] : List Char)).isSome then some 0 else none
  | c :: cs =>
    if (stripPfx pat (c :: cs)).isSome then some 0
    else (firstOccIdx pat cs).map Nat.succ

/-- Python `l.rsplit(sep, 1)[0]`: everything before the last occurrence
of `sep`, or the whole list when `sep` does not occur. -/
def rsplitBeforeLast (sep l : List Char) : List Char :=
  match firstOccIdx sep.reverse l.reverse with
  | none => l
  | some i => (l.reverse.drop (i + sep.length)).reverse

/-- The Markdown fence opener tagged as JSON. -/
def fenceJson : List Char := [btick, btick, btick, 'j', 's', 'o', 'n']

/-- The closing Markdown fence. -/
def fenceEnd : List Char := [btick, btick, btick]

theorem firstOccIdx_zero {pat l : List Char} (h : (stripPfx pat l).isSome = true) :
    firstOccIdx pat l = some 0 := by
  cases l with
  | nil => simp [firstOccIdx, h]
  | cons c cs => simp [firstOccIdx, h]

theorem rsplitBeforeLast_fenceEnd (x : List Char) :
    rsplitBeforeLast fenceEnd (x ++ fenceEnd) = x := by
  unfold rsplitBeforeLast
  have h1 : (x ++ fenceEnd).reverse = fenceEnd ++ x.reverse := by
    rw [List.reverse_append]
    rfl
  have h2 : firstOccIdx fenceEnd.reverse ((x ++ fenceEnd).reverse) = some 0 := by
    rw [h1]
    apply firstOccIdx_zero
    show (stripPfx fenceEnd (fenceEnd ++ x.reverse)).isSome = true
    rw [stripPfx_self_append]
    rfl
  rw [h2, h1]
  show ((fenceEnd ++ x.reverse).drop (0 + fenceEnd.length)).reverse = x
  rw [Nat.zero_add, List.drop_left, List.reverse_reverse]

theorem pyStrip_sandwich {c d : Char} (hc : isWs c = false) (hd : isWs d = false)
    (x : List Char) : pyStrip (c :: (x ++ [d])) = c :: (x ++ [d]) := by
  unfold pyStrip trimL trimR
  rw [List.dropWhile_cons, hc]
  simp only [Bool.false_eq_true, if_false]
  rw [show (c :: (x ++ [d])).reverse = d :: (x.reverse ++ [c]) by simp]
  rw [List.dropWhile_cons, hd]
  simp

/-- Model of `GeminiService._parse_gemini_response` (and of the identical
inline logic in `gemini_manager.send_to_gemini`): strip the outer
Markdown JSON fence when the trimmed text both starts with the fence
opener and ends with a closing fence (dropping the first seven characters
and splitting before the *last* closing fence), run the external
`json_repair.repair_json` (the parameter `repair`), and strictly parse
the result.  Any parse failure yields `none`, matching the `except`
branch that returns `None`. -/
def parse_gemini_response (fuel : Nat) (repair : List Char → List Char)
    (response_text : List Char) : Option JVal :=
  if startsWithL fenceJson (pyStrip response_text)
      && endsWithL fenceEnd (pyStrip response_text) then
    jsonParse fuel (repair (pyStrip (rsplitBeforeLast fenceEnd
      ((pyStrip response_text).drop fenceJson.length))))
  else
    jsonParse fuel (repair (pyStrip response_text))

/-- A payload wrapped in a Markdown JSON code fence. -/
def wrapJsonFence (s : List Char) : List Char :=
  fenceJson ++ '\n' :: (s ++ '\n' :: fenceEnd)

/-- C4: for every string `s` that strictly parses as the JSON value `v`
(at any parser fuel), running the repair/parse stage of
`_parse_gemini_response` on `s` wrapped in a Markdown JSON code fence
recovers exactly the value obtained by parsing `s` directly.  The fence
stripping drops the first fence-open and splits before the *last*
fence-close, so this holds even when `s` itself contains fence markers.
`repair` stands for the external `json_repair.repair_json`, assumed only
to preserve the parse of already-parseable text. -/
theorem c4_repair_roundtrip (fuel : Nat) (repair : List Char → List Char)
    (hrep : ∀ t v, jsonParse fuel t = some v → jsonParse fuel (repair t) = some v)
    (s : List Char) (v : JVal) (h : jsonParse fuel s = some v) :
    parse_gemini_response fuel repair (wrapJsonFence s) = some v := by
  have hb : isWs btick = false := by decide
  have hshape : wrapJsonFence s =
      btick :: (([btick, btick, 'j', 's', 'o', 'n', '\n'] ++ (s ++ ['\n', btick, btick]))
        ++ [btick]) := by
    simp [wrapJsonFence, fenceJson, fenceEnd]
  have hstrip : pyStrip (wrapJsonFence s) = wrapJsonFence s := by
    conv_lhs => rw [hshape]
    rw [pyStrip_sandwich hb hb]
    exact hshape.symm
  have hstart : startsWithL fenceJson (wrapJsonFence s) = true := by
    unfold startsWithL
    rw [show wrapJsonFence s = fenceJson ++ ('\n' :: (s ++ '\n' :: fenceEnd)) from rfl,
      stripPfx_self_append]
    rfl
  have hsplit : wrapJsonFence s = (fenceJson ++ ('\n' :: (s ++ ['\n']))) ++ fenceEnd := by
    simp [wrapJsonFence, List.append_assoc]
  have hend : endsWithL fenceEnd (wrapJsonFence s) = true := by
    unfold endsWithL
    rw [hsplit, List.reverse_append, show fenceEnd.reverse = fenceEnd from rfl,
      stripPfx_self_append]
    rfl
  unfold parse_gemini_response
  rw [hstrip, if_pos (by rw [hstart, hend]; rfl)]
  have hdrop : (wrapJsonFence s).drop fenceJson.length = '\n' :: (s ++ '\n' :: fenceEnd) := by
    rw [show wrapJsonFence s = fenceJson ++ ('\n' :: (s ++ '\n' :: fenceEnd)) from rfl,
      List.drop_left]
  rw [hdrop, show '\n' :: (s ++ '\n' :: fenceEnd) = ('\n' :: (s ++ ['\n'])) ++ fenceEnd by simp,
    rsplitBeforeLast_fenceEnd]
  apply hrep
  apply jsonParse_pyStrip
  rw [show '\n' :: (s ++ ['\n']) = ['\n'] ++ s ++ ['\n'] by simp]
  exact jsonParse_pad (by decide) (by decide) fuel s h

/-- Is `b` a UTF-8 continuation byte? -/
def isCont (b : Nat) : Bool := 0x80 ≤ b && b < 0xC0

/-- Model of Python `bytes.decode("utf-8")`: decode a byte list into
characters, or `none` on malformed UTF-8 (the `UnicodeDecodeError`
path in `OpenAIService.process_file`). -/
def utf8Decode : List Nat → Option (List Char)
  | [] => some []
  | b :: rest =>
    if b < 0x80 then
      (utf8Decode rest).map (fun cs => Char.ofNat b :: cs)
    else if 0xC2 ≤ b && b < 0xE0 then
      match rest with
      | b1 :: rest2 =>
        if isCont b1 then
          (utf8Decode rest2).map (fun cs => Char.ofNat ((b - 0xC0) * 64 + (b1 - 0x80)) :: cs)
        else none
      | [] => none
    else if 0xE0 ≤ b && b < 0xF0 then
      match rest with
      | b1 :: b2 :: rest2 =>
        if isCont b1 && isCont b2 then
          (utf8Decode rest2).map (fun cs =>
            Char.ofNat ((b - 0xE0) * 4096 + (b1 - 0x80) * 64 + (b2 - 0x80)) :: cs)
        else none
      | _ => none
    else if 0xF0 ≤ b && b < 0xF5 then
      match rest with
      | b1 :: b2 :: b3 :: rest2 =>
        if isCont b1 && isCont b2 && isCont b3 then
          (utf8Decode rest2).map (fun cs =>
            Char.ofNat ((b - 0xF0) * 262144 + (b1 - 0x80) * 4096
              + (b2 - 0x80) * 64 + (b3 - 0x80)) :: cs)
        else none
      | _ => none
    else none

/-- Python truthiness of an optional byte string (`if not file_content`). -/
def bytesTruthy : Option (List Nat) → Bool
  | none => false
  | some b => !b.isEmpty

/-- Python truthiness of an optional embedding vector (`if embeddings`). -/
def embTruthy : Option (List Int) → Bool
  | none => false
  | some l => !l.isEmpty

/-- Python truthiness of a JSON value.  Zero number literals are
approximated by their lexeme consisting of `0`, `-` and `.` only. -/
def jvalTruthy : JVal → Bool
  | JVal.null => false
  | JVal.bool b => b
  | JVal.num lex => !lex.all (fun c => c = '0' || c = '-' || c = '.')
  | JVal.str s => !s.isEmpty
  | JVal.arr xs => !xs.isEmpty
  | JVal.obj kvs => !kvs.isEmpty

/-- Python truthiness of `analysis_result` (`if analysis_result:`). -/
def optJvalTruthy : Option JVal → Bool
  | none => false
  | some v => jvalTruthy v

/-- Model of `file_name.lower().endswith(".pdf")`. -/
def isPdfName (file_name : List Char) : Bool :=
  endsWithL ['.', 'p', 'd', 'f'] (file_name.map Char.toLower)

/-- An outbound generative-model call made by an AI-service adapter. -/
inductive AiEv : Type where
  | geminiPdf : AiEv
  | openaiPdf : AiEv
  | openaiText : AiEv
deriving DecidableEq, Repr

/-- Model of `GeminiService.process_file` (ai_service.py lines 51–88):
PDF content is base64-encoded and sent to the Gemini backend (`backend`
maps the document bytes to the model's reply text) and the reply goes
through `_parse_gemini_response`; any non-PDF content is not processed at
all and yields `None` ("For now, only handle PDFs").  The second
component records the backend calls made. -/
def GeminiService.process_file (fuel : Nat) (repair : List Char → List Char)
    (backend : List Nat → List Char) (file_content : List Nat)
    (file_name document_category : List Char) : Option JVal × List AiEv :=
  if isPdfName file_name then
    (parse_gemini_response fuel repair (backend file_content), [AiEv.geminiPdf])
  else
    (none, [])

/-- The result dictionary built by `OpenAIService.process_file`: the
backend's raw reply text is stored verbatim under the `"analysis"` key. -/
def openaiResult (file_name document_category raw : List Char) : JVal :=
  JVal.obj [("file_name".toList, JVal.str file_name),
    ("document_category".toList, JVal.str document_category),
    ("analysis".toList, JVal.str raw)]

/-- Model of `OpenAIService.process_file` (ai_service.py lines 210–298):
PDF content goes to the chat-completions backend as a data URL; any
other content is decoded as UTF-8 (returning `None` on decode failure)
and submitted as text.  In both success paths the reply text
`response.choices[0].message.content` is wrapped verbatim in a dict. -/
def OpenAIService.process_file (chatPdf : List Nat → List Char)
    (chatText : List Char → List Char) (file_content : List Nat)
    (file_name document_category : List Char) : Option JVal × List AiEv :=
  if isPdfName file_name then
    (some (openaiResult file_name document_category (chatPdf file_content)), [AiEv.openaiPdf])
  else
    match utf8Decode file_content with
    | none => (none, [])
    | some text =>
      (some (openaiResult file_name document_category (chatText text)), [AiEv.openaiText])

/-- Serialize a string as a JSON string literal (the relevant fragment of
`json.dumps`). -/
def jsonQuote (s : List Char) : List Char :=
  '"' :: (s.flatMap (fun c =>
    if c = '"' then ['\\', '"']
    else if c = '\\' then ['\\', '\\']
    else if c = '\n' then ['\\', 'n']
    else if c = '\t' then ['\\', 't']
    else if c = '\r' then ['\\', 'r']
    else [c])) ++ ['"']

mutual

/-- Serialize a JSON value with `json.dumps`'s default separators. -/
def dumpJVal : JVal → List Char
  | JVal.null => "null".toList
  | JVal.bool b => if b then "true".toList else "false".toList
  | JVal.num lex => lex
  | JVal.str s => jsonQuote s
  | JVal.arr xs => '[' :: dumpArr xs ++ [']']
  | JVal.obj kvs => '{' :: dumpObj kvs ++ ['}']

def dumpArr : List JVal → List Char
  | [] => []
  | [x] => dumpJVal x
  | x :: y :: xs => dumpJVal x ++ ',' :: ' ' :: dumpArr (y :: xs)

def dumpObj : List (List Char × JVal) → List Char
  | [] => []
  | [(k, v)] => jsonQuote k ++ ':' :: ' ' :: dumpJVal v
  | (k, v) :: m :: kvs => jsonQuote k ++ ':' :: ' ' :: dumpJVal v ++ ',' :: ' ' :: dumpObj (m :: kvs)

end

/-- Serialize the `embeddings` field. -/
def dumpEmb : Option (List Int) → List Char
  | none => "null".toList
  | some l => dumpJVal (JVal.arr (l.map (fun i => JVal.num (toString i).toList)))

/-- Serialize the `analysis_result` field. -/
def dumpOptJVal : Option JVal → List Char
  | none => "null".toList
  | some v => dumpJVal v

/-- Model of `models.UploadedFile`: one per-file record inside a
`file_info` document. -/
structure UploadedFile : Type where
  _id : List Char
  revision_id : List Char
  file_name : List Char
  s3_key : List Char
  file_description : List Char
  document_category : List Char
  analysis_result : Option JVal
  embeddings : Option (List Int)

/-- Model of `json.dumps(file.dict())` — the text payload the
orchestrator feeds to `generate_embeddings` (service.py line 76), with
the dict insertion order of `UploadedFile.dict` (models.py lines 76–87). -/
def UploadedFile.dictJson (f : UploadedFile) : List Char :=
  '{' :: (jsonQuote "_id".toList ++ ':' :: ' ' :: jsonQuote f._id
    ++ ',' :: ' ' :: jsonQuote "revision_id".toList ++ ':' :: ' ' :: jsonQuote f.revision_id
    ++ ',' :: ' ' :: jsonQuote "embeddings".toList ++ ':' :: ' ' :: dumpEmb f.embeddings
    ++ ',' :: ' ' :: jsonQuote "file_name".toList ++ ':' :: ' ' :: jsonQuote f.file_name
    ++ ',' :: ' ' :: jsonQuote "s3_key".toList ++ ':' :: ' ' :: jsonQuote f.s3_key
    ++ ',' :: ' ' :: jsonQuote "file_description".toList
      ++ ':' :: ' ' :: jsonQuote f.file_description
    ++ ',' :: ' ' :: jsonQuote "document_category".toList
      ++ ':' :: ' ' :: jsonQuote f.document_category
    ++ ',' :: ' ' :: jsonQuote "analysis_result".toList
      ++ ':' :: ' ' :: dumpOptJVal f.analysis_result)
  ++ ['}']

/-- Model of `models.FileInfo`: the per-project document holding the
file list. -/
structure FileInfo : Type where
  user_id : List Char
  project_id : List Char
  files : List UploadedFile

/-- One externally visible effect of an orchestrator run: an S3
download, an AI-provider invocation, an embedding call, or a database
write. -/
inductive Ev : Type where
  | download (key : List Char) : Ev
  | aiProcess (file_name : List Char) : Ev
  | embedCall (payload : List Char) : Ev
  | updateFileInfo (project_id : List Char) (files : List UploadedFile) : Ev
  | updateProjectStatus (project_id : List Char) (status : List Char) : Ev

/-- The external collaborators reached by the per-file loop of
`ProjectFileService.process_files`: the S3 download and the configured
AI service's `process_file`, plus `generate_embeddings`.  Modelled from
the spec: `generate_embeddings` is invoked on the OpenAI adapter
(service.py line 76) but defined nowhere in the repository; following
§4.3 of the spec it maps a text payload to a fixed-length vector, with
failure surfacing as a falsy result.  No database accessor appears
here: the methods the service and controller try to call on
`DatabaseManager` (`update_file_info`, `get_file_info`) do not exist in
database.py, so those calls raise `AttributeError` before reaching any
collaborator. -/
structure Env : Type where
  download : List Char → Option (List Nat)
  ai_process_file : List Nat → List Char → List Char → Option JVal
  generate_embeddings : List Char → Option (List Int)

/-- One iteration of the per-file loop of `ProjectFileService.process_files`
(service.py lines 49–85): download from S3 and skip the file when the
result is falsy; otherwise send the content to the AI service, store a
truthy analysis result on the file, then generate embeddings over
`json.dumps(file.dict())` and store a truthy embedding vector.  Returns
the updated file and the trace of external calls for this file. -/
def processOne (env : Env) (f : UploadedFile) : UploadedFile × List Ev :=
  let dl := env.download f.s3_key
  if bytesTruthy dl = false then (f, [Ev.download f.s3_key])
  else
    let analysis_result := env.ai_process_file (dl.getD []) f.file_name f.document_category
    let f1 := if optJvalTruthy analysis_result then
        { f with analysis_result := analysis_result } else f
    let payload := f1.dictJson
    let embeddings := env.generate_embeddings payload
    let f2 := if embTruthy embeddings then { f1 with embeddings := embeddings } else f1
    (f2, [Ev.download f.s3_key, Ev.aiProcess f.file_name, Ev.embedCall payload])

/-- Model of `ProjectFileService.process_files` together with
`_update_database` (service.py lines 31–123): guard against a falsy
`file_info`, then run the per-file loop over every file in list order
and call `_update_database`.  `_update_database`'s first statement
invokes `self.db_manager.update_file_info`, a method `DatabaseManager`
(database.py) does not define — only `get_files_info`,
`update_project_status` and `update_file` exist — so an
`AttributeError` is raised before any database write, caught by the
`except`, and `False` is returned; the `update_project_status` call is
never reached.  The run therefore emits no database event and always
reports failure once the loop has run.  Returns the Python boolean
result, the updated in-memory document, and the trace of external
calls. -/
def process_files (env : Env) (file_info : Option FileInfo) :
    Bool × Option FileInfo × List Ev :=
  match file_info with
  | none => (false, none, [])
  | some fi =>
    if fi.files.isEmpty then (false, some fi, [])
    else
      let results := fi.files.map (processOne env)
      let files2 := results.map Prod.fst
      let evs := (results.map Prod.snd).flatten
      (false, some { fi with files := files2 }, evs)

/-- The relevant fields of the Lambda event dict. -/
structure EventMsg : Type where
  project_id : Option (List Char)
  user_id : Option (List Char)
  action : Option (List Char)

/-- Python truthiness of `message.get(...)` for a string field. -/
def optStrTruthy : Option (List Char) → Bool
  | none => false
  | some s => !s.isEmpty

/-- Model of `LambdaController.handle_event` (controller.py lines
27–95): an empty message is a 200 no-op; a falsy `project_id` or
`user_id`, or an `action` other than the literal `"process"`, is a 400
client error returned before any storage or database access.  Past
validation, the controller evaluates `self.db_manager.get_file_info` —
an attribute `DatabaseManager` (database.py) does not define — so an
`AttributeError` is raised before any storage or database call; the
outer `except` turns it into a 500 response.  Returns the response
status code and the trace of external calls. -/
def handle_event (env : Env) (event : EventMsg) : Nat × List Ev :=
  if event.project_id = none ∧ event.user_id = none ∧ event.action = none then
    (200, [])
  else if optStrTruthy event.project_id = false then (400, [])
  else if optStrTruthy event.user_id = false then (400, [])
  else if event.action ≠ some "process".toList then (400, [])
  else (500, [])

/-- Descending insertion by score (ties keep earlier elements first). -/
def insertDesc (score : FileInfo → Int) (d : FileInfo) : List FileInfo → List FileInfo
  | [] => [d]
  | x :: xs => if score x < score d then d :: x :: xs else x :: insertDesc score d xs

/-- Rank a collection by descending similarity score. -/
def sortByScore (score : FileInfo → Int) : List FileInfo → List FileInfo
  | [] => []
  | d :: ds => insertDesc score d (sortByScore score ds)

/-- Semantics of the aggregation returned by `chat_pipeline`
(src/domains/chat/pipelines.py lines 4–25): a `$vectorSearch` stage over
the whole `file_info` collection — ranking by the backend similarity
`score` against the query embedding and keeping the top 100 candidates —
followed by a `$match` stage filtering on equality of `user_id` and
`project_id` with the requesting context. -/
def chat_pipeline_run (score : FileInfo → Int) (collection : List FileInfo)
    (user_id project_id : List Char) : List FileInfo :=
  ((sortByScore score collection).take 100).filter
    (fun d => d.user_id == user_id && d.project_id == project_id)

/-- Model of `models.Project` / the Beanie `Project` document. -/
structure Project : Type where
  project_id : List Char
  user_id : List Char
  name : List Char
  description : Option (List Char)
  status : List Char
  created_at : Nat
  updated_at : Option Nat

/-- Model of `update_project_status` (src/domains/project/flows.py lines
136–175): look up the project by `project_id` alone; when absent, build a
brand-new `Project` carrying the default name `"Project {project_id}"`
and the requested status; otherwise update the status and `updated_at`.
The returned project is the document passed to `save()`. -/
def update_project_status (find_one : List Char → Option Project) (now : Nat)
    (user_id project_id status : List Char) : Project :=
  match find_one project_id with
  | none =>
    { project_id := project_id
      user_id := user_id
      name := "Project ".toList ++ project_id
      description := none
      status := status
      created_at := now
      updated_at := none }
  | some p => { p with status := status, updated_at := some now }

/-- C2: scope isolation of the retrieval pipeline: every record returned
by the aggregation built in `chat_pipeline` belongs to the requesting
user and project — the trailing `$match` stage filters on equality of
`user_id` and `project_id`, so no record of another user or project is
ever returned, whatever its similarity score. -/
theorem c2_scope_isolation (score : FileInfo → Int) (collection : List FileInfo)
    (user_id project_id : List Char) (d : FileInfo)
    (hd : d ∈ chat_pipeline_run score collection user_id project_id) :
    d.user_id = user_id ∧ d.project_id = project_id := by
  unfold chat_pipeline_run at hd
  rw [List.mem_filter, Bool.and_eq_true] at hd
  exact ⟨by simpa using hd.2.1, by simpa using hd.2.2⟩

/-- A one-document collection used to witness the retrieval theorems. -/
def c2Doc : FileInfo := { user_id := ['u'], project_id := ['p'], files := [] }

theorem c2_scope_isolation_witness :
    c2Doc ∈ chat_pipeline_run (fun _ => 0) [c2Doc] ['u'] ['p'] ∧
    c2Doc.user_id = ['u'] ∧ c2Doc.project_id = ['p'] :=
  have hm : c2Doc ∈ chat_pipeline_run (fun _ => 0) [c2Doc] ['u'] ['p'] := by
    rw [show chat_pipeline_run (fun _ => 0) [c2Doc] ['u'] ['p'] = [c2Doc] from rfl]
    exact List.mem_singleton.mpr rfl
  ⟨hm, c2_scope_isolation (fun _ => 0) [c2Doc] ['u'] ['p'] c2Doc hm⟩

/-- C9: a job event whose `action` is not the literal `"process"` but
which carries truthy `project_id` and `user_id` receives an immediate
400 client-error response, before any storage or database access and
with no side effects (the effect trace is empty). -/
theorem c9_action_validation (env : Env) (event : EventMsg)
    (hp : optStrTruthy event.project_id = true)
    (hu : optStrTruthy event.user_id = true)
    (ha : event.action ≠ some "process".toList) :
    handle_event env event = (400, []) := by
  have h1 : ¬(event.project_id = none ∧ event.user_id = none ∧ event.action = none) := by
    rintro ⟨h, -, -⟩
    rw [h] at hp
    simp [optStrTruthy] at hp
  unfold handle_event
  rw [if_neg h1, if_neg (by rw [hp]; simp), if_neg (by rw [hu]; simp), if_pos ha]

/-- An environment whose collaborators all answer trivially. -/
def envNoop : Env :=
  { download := fun _ => none
    ai_process_file := fun _ _ _ => none
    generate_embeddings := fun _ => none }

theorem c9_action_validation_witness :
    optStrTruthy (some ['p']) = true ∧ optStrTruthy (some ['u']) = true ∧
    some "delete".toList ≠ some "process".toList ∧
    handle_event envNoop
      { project_id := some ['p'], user_id := some ['u'], action := some "delete".toList }
      = (400, []) :=
  ⟨rfl, rfl, by decide,
    c9_action_validation envNoop
      { project_id := some ['p'], user_id := some ['u'], action := some "delete".toList }
      rfl rfl (by decide)⟩

/-- C10: when no project with the given id exists, `update_project_status`
does not fail or report not-found: it builds a brand-new project carrying
the default name `"Project {project_id}"`, the requested status and the
caller's `user_id`, and saves it — a status update silently brings the
project into existence. -/
theorem c10_status_upsert (find_one : List Char → Option Project) (now : Nat)
    (user_id project_id status : List Char) (h : find_one project_id = none) :
    update_project_status find_one now user_id project_id status =
      { project_id := project_id
        user_id := user_id
        name := "Project ".toList ++ project_id
        description := none
        status := status
        created_at := now
        updated_at := none } := by
  unfold update_project_status
  rw [h]

theorem c10_status_upsert_witness :
    (fun _ : List Char => (none : Option Project)) ['p'] = none ∧
    update_project_status (fun _ => none) 7 ['u'] ['p'] "in_progress".toList =
      { project_id := ['p']
        user_id := ['u']
        name := "Project ".toList ++ ['p']
        description := none
        status := "in_progress".toList
        created_at := 7
        updated_at := none } :=
  ⟨rfl, c10_status_upsert (fun _ => none) 7 ['u'] ['p'] "in_progress".toList rfl⟩

theorem c4_repair_roundtrip_witness :
    (∀ t v, jsonParse 50 t = some v → jsonParse 50 (id t) = some v) ∧
    jsonParse 50 "[1, true]".toList = some (JVal.arr [JVal.num ['1'], JVal.bool true]) ∧
    parse_gemini_response 50 id (wrapJsonFence "[1, true]".toList)
      = some (JVal.arr [JVal.num ['1'], JVal.bool true]) :=
  ⟨fun _ _ h => h, rfl,
    c4_repair_roundtrip 50 id (fun _ _ h => h) "[1, true]".toList
      (JVal.arr [JVal.num ['1'], JVal.bool true]) rfl⟩

theorem processOne_download_mem (env : Env) (f : UploadedFile) :
    Ev.download f.s3_key ∈ (processOne env f).2 := by
  simp only [processOne]
  split
  · exact List.mem_singleton.mpr rfl
  · exact List.mem_cons_self _ _

theorem processOne_ai_mem (env : Env) (f : UploadedFile)
    (h : bytesTruthy (env.download f.s3_key) = true) :
    Ev.aiProcess f.file_name ∈ (processOne env f).2 := by
  simp only [processOne]
  rw [if_neg (by rw [h]; simp)]
  exact List.mem_cons_of_mem _ (List.mem_cons_self _ _)

theorem files_isEmpty_false {fi : FileInfo} {f : UploadedFile} (hf : f ∈ fi.files) :
    ¬(fi.files.isEmpty = true) := by
  simp only [List.isEmpty_iff]
  exact List.ne_nil_of_mem hf

theorem process_files_trace_mem (env : Env) (fi : FileInfo) (f : UploadedFile)
    (hf : f ∈ fi.files) (e : Ev) (he : e ∈ (processOne env f).2) :
    e ∈ (process_files env (some fi)).2.2 := by
  simp only [process_files]
  rw [if_neg (files_isEmpty_false hf)]
  rw [List.mem_flatten]
  exact ⟨(processOne env f).2,
    List.mem_map_of_mem Prod.snd (List.mem_map_of_mem (processOne env) hf), he⟩

theorem processOne_embed_mem (env : Env) (f : UploadedFile)
    (h : bytesTruthy (env.download f.s3_key) = true) :
    ∃ payload, Ev.embedCall payload ∈ (processOne env f).2 := by
  simp only [processOne]
  rw [if_neg (by rw [h]; simp)]
  exact ⟨_, List.mem_cons_of_mem _ (List.mem_cons_of_mem _ (List.mem_singleton.mpr rfl))⟩

theorem processOne_ev_shape (env : Env) (f : UploadedFile) (e : Ev)
    (he : e ∈ (processOne env f).2) :
    (∃ k, e = Ev.download k) ∨ (∃ n, e = Ev.aiProcess n) ∨
      (∃ p, e = Ev.embedCall p) := by
  simp only [processOne] at he
  by_cases h : bytesTruthy (env.download f.s3_key) = false
  · rw [if_pos h] at he
    rw [List.mem_singleton] at he
    exact Or.inl ⟨_, he⟩
  · rw [if_neg h] at he
    simp only [List.mem_cons, List.not_mem_nil, or_false] at he
    rcases he with he | he | he
    · exact Or.inl ⟨_, he⟩
    · exact Or.inr (Or.inl ⟨_, he⟩)
    · exact Or.inr (Or.inr ⟨_, he⟩)

/-- The service-variant run never issues a database write: the per-file
loop emits only download, AI and embedding events and `_update_database`
dies before its first write. -/
theorem process_files_no_db_write (env : Env) (fi : Option FileInfo)
    (p : List Char) (fs : List UploadedFile) :
    Ev.updateFileInfo p fs ∉ (process_files env fi).2.2 := by
  intro hmem
  match fi with
  | none => exact absurd hmem (by simp [process_files])
  | some fi =>
    simp only [process_files] at hmem
    by_cases hne : fi.files.isEmpty = true
    · rw [if_pos hne] at hmem
      exact absurd hmem (by simp)
    · rw [if_neg hne] at hmem
      rw [List.mem_flatten] at hmem
      obtain ⟨l, hl, hel⟩ := hmem
      rw [List.mem_map] at hl
      obtain ⟨pr, hpr, rfl⟩ := hl
      rw [List.mem_map] at hpr
      obtain ⟨f, hf, rfl⟩ := hpr
      rcases processOne_ev_shape env f _ hel with ⟨k, hk⟩ | ⟨n, hn⟩ | ⟨q, hq⟩
      · exact Ev.noConfusion hk
      · exact Ev.noConfusion hn
      · exact Ev.noConfusion hq

/-- A file that already carries a non-null `analysis_result`. -/
def c1File : UploadedFile :=
  { _id := ['i']
    revision_id := ['r']
    file_name := "a.pdf".toList
    s3_key := ['k']
    file_description := []
    document_category := "other".toList
    analysis_result := some (JVal.str "done".toList)
    embeddings := none }

/-- Collaborators that make every external call succeed. -/
def c1Env : Env :=
  { download := fun _ => some [37]
    ai_process_file := fun _ _ _ => some (JVal.str "fresh".toList)
    generate_embeddings := fun _ => some [1] }

/-- C1 counterexample: a file whose `analysis_result` is already non-null
is nonetheless fully reprocessed: the run's effect trace opens with the
S3 download and the AI-provider call for that very file and has three
events in total — download, AI call and embedding call — where the claim
requires no download, AI call or embedding call at all for such a file.
(No database events follow: `_update_database` aborts on the missing
`DatabaseManager.update_file_info` before any write.) -/
theorem c1_counterexample :
    c1File.analysis_result = some (JVal.str "done".toList) ∧
    (process_files c1Env
        (some { user_id := ['u'], project_id := ['p'], files := [c1File] })).2.2.take 2
      = [Ev.download ['k'], Ev.aiProcess "a.pdf".toList] ∧
    (process_files c1Env
        (some { user_id := ['u'], project_id := ['p'], files := [c1File] })).2.2.length = 3 :=
  ⟨rfl, rfl, rfl⟩

/-- C1 (amended): `process_files` performs no idempotence check: the S3
download is attempted for every file of the project — and, whenever the
downloaded content is truthy, the AI-provider call and the embedding
call follow — regardless of any pre-existing non-null `analysis_result`
on the file. -/
theorem c1_no_idempotence_skip (env : Env) (fi : FileInfo) (f : UploadedFile)
    (hf : f ∈ fi.files) :
    Ev.download f.s3_key ∈ (process_files env (some fi)).2.2 ∧
    (bytesTruthy (env.download f.s3_key) = true →
      Ev.aiProcess f.file_name ∈ (process_files env (some fi)).2.2 ∧
      ∃ payload, Ev.embedCall payload ∈ (process_files env (some fi)).2.2) :=
  ⟨process_files_trace_mem env fi f hf _ (processOne_download_mem env f),
    fun h =>
      ⟨process_files_trace_mem env fi f hf _ (processOne_ai_mem env f h),
        match processOne_embed_mem env f h with
        | ⟨payload, hp⟩ => ⟨payload, process_files_trace_mem env fi f hf _ hp⟩⟩⟩

theorem c1_no_idempotence_skip_witness :
    c1File ∈ [c1File] ∧
    Ev.download ['k'] ∈ (process_files c1Env
      (some { user_id := ['u'], project_id := ['p'], files := [c1File] })).2.2 :=
  ⟨List.mem_singleton.mpr rfl,
    (c1_no_idempotence_skip c1Env
      { user_id := ['u'], project_id := ['p'], files := [c1File] }
      c1File (List.mem_singleton.mpr rfl)).1⟩

/-- The external collaborators of `business_logic.process_files`
(business_logic.py), the module-level orchestrator variant invoked by
`lambda_function.lambda_handler`: the module-level S3 `download_file`,
`gemini_manager.send_to_gemini`, and the two pymongo `update_one` calls
on the `file_info` and `projects` collections — each returning the
modified-document count, or `none` when the driver raises (the source's
`except` path). -/
structure BlEnv : Type where
  download_file : List Char → Option (List Nat)
  send_to_gemini : List Nat → List Char → List Char → Option JVal
  update_one_file_info : List Char → List UploadedFile → Option Nat
  update_one_projects : List Char → List Char → Option Nat

/-- One iteration of the per-file loop of `business_logic.process_files`
(business_logic.py lines 30–51): download from S3 and skip the file when
the result is falsy; otherwise send the content to Gemini and store a
truthy analysis result on the file.  This variant computes no
embeddings. -/
def blProcessOne (env : BlEnv) (f : UploadedFile) : UploadedFile × List Ev :=
  let dl := env.download_file f.s3_key
  if bytesTruthy dl = false then (f, [Ev.download f.s3_key])
  else
    let analysis_result := env.send_to_gemini (dl.getD []) f.file_name f.document_category
    let f1 := if optJvalTruthy analysis_result then
        { f with analysis_result := analysis_result } else f
    (f1, [Ev.download f.s3_key, Ev.aiProcess f.file_name])

/-- Model of `business_logic.process_files` (business_logic.py lines
20–88): guard against a falsy `file_info`, run the per-file loop over
every file in list order, then update the `file_info` document and the
project status through pymongo `update_one` (a `none` result models the
driver raising, which the `except` turns into `False`; the modified
count only affects logging) and return `True` when no exception
occurred. -/
def business_logic_process_files (env : BlEnv) (file_info : Option FileInfo) :
    Bool × Option FileInfo × List Ev :=
  match file_info with
  | none => (false, none, [])
  | some fi =>
    if fi.files.isEmpty then (false, some fi, [])
    else
      let results := fi.files.map (blProcessOne env)
      let files2 := results.map Prod.fst
      let evs := (results.map Prod.snd).flatten
      if (env.update_one_file_info fi.project_id files2).isSome = false then
        (false, some { fi with files := files2 },
          evs ++ [Ev.updateFileInfo fi.project_id files2])
      else if (env.update_one_projects fi.project_id "completed".toList).isSome = false then
        (false, some { fi with files := files2 },
          evs ++ [Ev.updateFileInfo fi.project_id files2,
            Ev.updateProjectStatus fi.project_id "completed".toList])
      else
        (true, some { fi with files := files2 },
          evs ++ [Ev.updateFileInfo fi.project_id files2,
            Ev.updateProjectStatus fi.project_id "completed".toList])

theorem blProcessOne_download_mem (env : BlEnv) (f : UploadedFile) :
    Ev.download f.s3_key ∈ (blProcessOne env f).2 := by
  simp only [blProcessOne]
  split
  · exact List.mem_singleton.mpr rfl
  · exact List.mem_cons_self _ _

theorem blProcessOne_ai_mem (env : BlEnv) (f : UploadedFile)
    (h : bytesTruthy (env.download_file f.s3_key) = true) :
    Ev.aiProcess f.file_name ∈ (blProcessOne env f).2 := by
  simp only [blProcessOne]
  rw [if_neg (by rw [h]; simp)]
  exact List.mem_cons_of_mem _ (List.mem_singleton.mpr rfl)

theorem bl_trace_mem (env : BlEnv) (fi : FileInfo) (f : UploadedFile)
    (hf : f ∈ fi.files) (e : Ev) (he : e ∈ (blProcessOne env f).2) :
    e ∈ (business_logic_process_files env (some fi)).2.2 := by
  have hmem : e ∈ ((fi.files.map (blProcessOne env)).map Prod.snd).flatten := by
    rw [List.mem_flatten]
    exact ⟨(blProcessOne env f).2,
      List.mem_map_of_mem Prod.snd (List.mem_map_of_mem (blProcessOne env) hf), he⟩
  simp only [business_logic_process_files]
  rw [if_neg (files_isEmpty_false hf)]
  split
  · exact List.mem_append_left _ hmem
  · split
    · exact List.mem_append_left _ hmem
    · exact List.mem_append_left _ hmem

/-- C5: batch resilience of `business_logic.process_files` (the
module-level orchestrator variant cited by the claim and invoked by
`lambda_function.py`): when the S3 fetch fails (returns nothing) for the
file at position `k`, the run still attempts the download of every file
in the list and the Gemini analysis of every file whose download is
truthy — no single file aborts the batch — and, provided the two pymongo
updates raise no exception, the batch run reports success. -/
theorem c5_batch_resilience (env : BlEnv) (fi : FileInfo) (k : Nat)
    (hk : k < fi.files.length)
    (hfail : env.download_file ((fi.files.get ⟨k, hk⟩).s3_key) = none)
    (hdb1 : ∀ p fs, (env.update_one_file_info p fs).isSome = true)
    (hdb2 : ∀ p s, (env.update_one_projects p s).isSome = true) :
    (∀ f ∈ fi.files,
      Ev.download f.s3_key ∈ (business_logic_process_files env (some fi)).2.2) ∧
    (∀ f ∈ fi.files, bytesTruthy (env.download_file f.s3_key) = true →
      Ev.aiProcess f.file_name ∈ (business_logic_process_files env (some fi)).2.2) ∧
    (business_logic_process_files env (some fi)).1 = true := by
  have hmem : fi.files.get ⟨k, hk⟩ ∈ fi.files := List.get_mem fi.files k hk
  refine ⟨?_, ?_, ?_⟩
  · intro f hf
    exact bl_trace_mem env fi f hf _ (blProcessOne_download_mem env f)
  · intro f hf h
    exact bl_trace_mem env fi f hf _ (blProcessOne_ai_mem env f h)
  · simp only [business_logic_process_files]
    rw [if_neg (files_isEmpty_false hmem), if_neg (by rw [hdb1]; simp),
      if_neg (by rw [hdb2]; simp)]

/-- Collaborators for which exactly the key `"k0"` is missing from
storage and the database raises no exception. -/
def c5Env : BlEnv :=
  { download_file := fun key => if key = "k0".toList then none else some [1]
    send_to_gemini := fun _ _ _ => some (JVal.str "ok".toList)
    update_one_file_info := fun _ _ => some 1
    update_one_projects := fun _ _ => some 1 }

def c5FileA : UploadedFile :=
  { _id := ['1']
    revision_id := ['r']
    file_name := "a.pdf".toList
    s3_key := "k0".toList
    file_description := []
    document_category := "other".toList
    analysis_result := none
    embeddings := none }

def c5FileB : UploadedFile :=
  { c5FileA with _id := ['2'], file_name := "b.pdf".toList, s3_key := "k1".toList }

def c5Fi : FileInfo := { user_id := ['u'], project_id := ['p'], files := [c5FileA, c5FileB] }

theorem c5_batch_resilience_witness :
    c5Env.download_file ((c5Fi.files.get ⟨0, by decide⟩).s3_key) = none ∧
    (business_logic_process_files c5Env (some c5Fi)).1 = true ∧
    Ev.download "k1".toList ∈ (business_logic_process_files c5Env (some c5Fi)).2.2 :=
  ⟨rfl,
    (c5_batch_resilience c5Env c5Fi 0 (by decide) rfl
      (fun _ _ => rfl) (fun _ _ => rfl)).2.2,
    (c5_batch_resilience c5Env c5Fi 0 (by decide) rfl
      (fun _ _ => rfl) (fun _ _ => rfl)).1 c5FileB
      (List.mem_cons_of_mem _ (List.mem_singleton.mpr rfl))⟩

/-- C6 evaluated on the code: when the download and the AI analysis of a
file succeed but the embedding call fails (falsy result), the in-memory
record keeps the freshly set `analysis_result`, its `embeddings` field
is exactly what it was before the run, and the record is part of the
updated file list — but, diverging from the claim, that list is never
persisted: the run issues no database write whatsoever (the nonexistent
`DatabaseManager.update_file_info` aborts `_update_database` before its
first write) and the batch reports failure. -/
theorem c6_embedding_no_persistence (env : Env) (fi : FileInfo) (f : UploadedFile)
    (hf : f ∈ fi.files)
    (hdl : bytesTruthy (env.download f.s3_key) = true)
    (hai : optJvalTruthy (env.ai_process_file ((env.download f.s3_key).getD [])
      f.file_name f.document_category) = true)
    (hemb : embTruthy (env.generate_embeddings (UploadedFile.dictJson
      { f with analysis_result := (env.ai_process_file ((env.download f.s3_key).getD [])
          f.file_name f.document_category) })) = false) :
    (processOne env f).1.analysis_result
        = env.ai_process_file ((env.download f.s3_key).getD []) f.file_name f.document_category ∧
    (processOne env f).1.embeddings = f.embeddings ∧
    (processOne env f).1 ∈ (fi.files.map (processOne env)).map Prod.fst ∧
    (process_files env (some fi)).1 = false ∧
    (∀ p fs, Ev.updateFileInfo p fs ∉ (process_files env (some fi)).2.2) := by
  have hpo : processOne env f =
      ({ f with analysis_result := (env.ai_process_file ((env.download f.s3_key).getD [])
          f.file_name f.document_category) },
        [Ev.download f.s3_key, Ev.aiProcess f.file_name,
          Ev.embedCall (UploadedFile.dictJson
            { f with analysis_result := (env.ai_process_file ((env.download f.s3_key).getD [])
                f.file_name f.document_category) })]) := by
    simp only [processOne]
    rw [if_neg (by rw [hdl]; simp), if_pos hai, if_neg (by rw [hemb]; simp)]
  refine ⟨?_, ?_, ?_, ?_, ?_⟩
  · rw [hpo]
  · rw [hpo]
  · exact List.mem_map_of_mem Prod.fst (List.mem_map_of_mem (processOne env) hf)
  · simp only [process_files]
    rw [if_neg (files_isEmpty_false hf)]
  · intro p fs
    exact process_files_no_db_write env (some fi) p fs

def c6Env : Env :=
  { download := fun _ => some [1]
    ai_process_file := fun _ _ _ => some (JVal.str "ok".toList)
    generate_embeddings := fun _ => none }

def c6File : UploadedFile :=
  { _id := ['1']
    revision_id := ['r']
    file_name := "a.pdf".toList
    s3_key := ['k']
    file_description := []
    document_category := "other".toList
    analysis_result := none
    embeddings := none }

def c6Fi : FileInfo := { user_id := ['u'], project_id := ['p'], files := [c6File] }

theorem c6_embedding_no_persistence_witness :
    bytesTruthy (c6Env.download c6File.s3_key) = true ∧
    (processOne c6Env c6File).1.analysis_result = some (JVal.str "ok".toList) ∧
    (processOne c6Env c6File).1.embeddings = none ∧
    (process_files c6Env (some c6Fi)).1 = false :=
  ⟨rfl,
    (c6_embedding_no_persistence c6Env c6Fi c6File (List.mem_singleton.mpr rfl)
      rfl rfl rfl).1,
    (c6_embedding_no_persistence c6Env c6Fi c6File (List.mem_singleton.mpr rfl)
      rfl rfl rfl).2.1,
    (c6_embedding_no_persistence c6Env c6Fi c6File (List.mem_singleton.mpr rfl)
      rfl rfl rfl).2.2.2.1⟩

theorem isInfix_self_append {seg t : List Char} : List.IsInfix seg (seg ++ t) :=
  ⟨[], t, by simp⟩

theorem isInfix_cons {seg l : List Char} (c : Char) (h : List.IsInfix seg l) :
    List.IsInfix seg (c :: l) := by
  obtain ⟨s, t, hst⟩ := h
  exact ⟨c :: s, t, by rw [← hst]; simp⟩

theorem isInfix_append_left {seg l : List Char} (x : List Char) (h : List.IsInfix seg l) :
    List.IsInfix seg (x ++ l) := by
  obtain ⟨s, t, hst⟩ := h
  exact ⟨x ++ s, t, by rw [← hst]; simp⟩

def c7FileA : UploadedFile :=
  { _id := ['a']
    revision_id := ['r']
    file_name := "f.pdf".toList
    s3_key := "k1".toList
    file_description := []
    document_category := "other".toList
    analysis_result := none
    embeddings := none }

def c7FileB : UploadedFile := { c7FileA with s3_key := "k2".toList }

/-- C7 counterexample: two file records identical in every
user-meaningful field — file name, description, category, analysis
result, embeddings — but with different storage keys produce *different*
embedding payloads, because `json.dumps(file.dict())` serializes the
full dict of `UploadedFile.dict`, storage key and internal identifiers
included.  The claim requires the payloads to be equal. -/
theorem c7_counterexample :
    c7FileB = { c7FileA with s3_key := "k2".toList } ∧
    c7FileA.file_name = c7FileB.file_name ∧
    c7FileA.file_description = c7FileB.file_description ∧
    c7FileA.document_category = c7FileB.document_category ∧
    c7FileA.analysis_result = c7FileB.analysis_result ∧
    c7FileA.embeddings = c7FileB.embeddings ∧
    UploadedFile.dictJson c7FileA ≠ UploadedFile.dictJson c7FileB :=
  ⟨rfl, rfl, rfl, rfl, rfl, rfl, by decide⟩

/-- C7 (amended): the text payload handed to the embedding generator is
`json.dumps` of the *full* `UploadedFile.dict`: the serialized storage
key (`s3_key`) and the internal identifiers (`_id`, `revision_id`) occur
verbatim inside it, so embedding payloads are not stable under
identifier churn. -/
theorem c7_payload_contains_identifiers (f : UploadedFile) :
    List.IsInfix (jsonQuote f.s3_key) (UploadedFile.dictJson f) ∧
    List.IsInfix (jsonQuote f._id) (UploadedFile.dictJson f) ∧
    List.IsInfix (jsonQuote f.revision_id) (UploadedFile.dictJson f) := by
  refine ⟨?_, ?_, ?_⟩ <;>
    · simp only [UploadedFile.dictJson, List.append_assoc, List.cons_append]
      repeat
        first
        | exact isInfix_self_append
        | apply isInfix_cons
        | apply isInfix_append_left

/-- C3 counterexample: the OpenAI adapter, given a text file and a
backend reply that is not parseable JSON, returns a non-null result that
embeds the raw reply verbatim under the `"analysis"` key — contradicting
the claim that `process_file` only ever returns structured data
recovered from the reply, or null. -/
theorem c3_counterexample :
    OpenAIService.process_file (fun _ => []) (fun _ => "this is not JSON".toList)
        [104, 105] "a.txt".toList "other".toList
      = (some (openaiResult "a.txt".toList "other".toList "this is not JSON".toList),
        [AiEv.openaiText]) ∧
    jsonParse 50 "this is not JSON".toList = none :=
  ⟨rfl, rfl⟩

/-- C3 (amended): the Gemini adapter meets the contract — whenever its
result is non-null it is a value recovered by the repair/parse stage
(`jsonParse` of repaired text) — but the OpenAI adapter does not: in both
of its success paths it wraps the backend's raw reply text verbatim under
the `"analysis"` key of the returned dict, whether or not that text
parses as structured data. -/
theorem c3_raw_text (fuel : Nat) (repair : List Char → List Char)
    (backend chatPdf : List Nat → List Char) (chatText : List Char → List Char)
    (content : List Nat) (file_name document_category : List Char) :
    (∀ v, (GeminiService.process_file fuel repair backend content
        file_name document_category).1 = some v →
      ∃ t, jsonParse fuel (repair t) = some v) ∧
    (isPdfName file_name = true →
      (OpenAIService.process_file chatPdf chatText content file_name document_category).1
        = some (openaiResult file_name document_category (chatPdf content))) ∧
    (∀ text, isPdfName file_name = false → utf8Decode content = some text →
      (OpenAIService.process_file chatPdf chatText content file_name document_category).1
        = some (openaiResult file_name document_category (chatText text))) := by
  refine ⟨?_, ?_, ?_⟩
  · intro v hv
    unfold GeminiService.process_file at hv
    by_cases hp : isPdfName file_name = true
    · rw [if_pos hp] at hv
      simp only at hv
      unfold parse_gemini_response at hv
      by_cases hf : (startsWithL fenceJson (pyStrip (backend content))
          && endsWithL fenceEnd (pyStrip (backend content))) = true
      · rw [if_pos hf] at hv
        exact ⟨_, hv⟩
      · rw [if_neg hf] at hv
        exact ⟨_, hv⟩
    · rw [if_neg hp] at hv
      simp at hv
  · intro hp
    unfold OpenAIService.process_file
    rw [if_pos hp]
  · intro text hp hd
    unfold OpenAIService.process_file
    rw [if_neg (by simp [hp]), hd]

theorem c3_raw_text_witness :
    isPdfName "a.txt".toList = false ∧
    utf8Decode [104, 105] = some ['h', 'i'] ∧
    (OpenAIService.process_file (fun _ => []) (fun _ => "raw reply".toList)
        [104, 105] "a.txt".toList "other".toList).1
      = some (openaiResult "a.txt".toList "other".toList "raw reply".toList) :=
  ⟨rfl, rfl,
    (c3_raw_text 50 id (fun _ => []) (fun _ => []) (fun _ => "raw reply".toList)
      [104, 105] "a.txt".toList "other".toList).2.2 ['h', 'i'] rfl rfl⟩

/-- C8 counterexample: the Gemini adapter, handed perfectly decodable
UTF-8 text content under a `.txt` name, performs no backend call at all
and returns `None` — contradicting the claim that every backend variant
decodes non-PDF content as UTF-8 and analyzes it via the text path. -/
theorem c8_counterexample :
    GeminiService.process_file 50 id (fun _ => "[1]".toList) [104, 105]
        "notes.txt".toList "other".toList = (none, []) ∧
    utf8Decode [104, 105] = some ['h', 'i'] :=
  ⟨rfl, rfl⟩

/-- C8 (amended): only the OpenAI backend implements the text path:
non-PDF content is decoded as UTF-8 and analyzed via a text
chat-completion, decode failure yielding a null result (and never an
exception — the model is a total function); the Gemini backend returns
null for all non-PDF content without invoking any backend. -/
theorem c8_text_path (fuel : Nat) (repair : List Char → List Char)
    (backend chatPdf : List Nat → List Char) (chatText : List Char → List Char)
    (content : List Nat) (file_name document_category : List Char)
    (hn : isPdfName file_name = false) :
    (∀ text, utf8Decode content = some text →
      OpenAIService.process_file chatPdf chatText content file_name document_category
        = (some (openaiResult file_name document_category (chatText text)),
          [AiEv.openaiText])) ∧
    (utf8Decode content = none →
      OpenAIService.process_file chatPdf chatText content file_name document_category
        = (none, [])) ∧
    GeminiService.process_file fuel repair backend content file_name document_category
      = (none, []) := by
  refine ⟨?_, ?_, ?_⟩
  · intro text hd
    unfold OpenAIService.process_file
    rw [if_neg (by simp [hn]), hd]
  · intro hd
    unfold OpenAIService.process_file
    rw [if_neg (by simp [hn]), hd]
  · unfold GeminiService.process_file
    rw [if_neg (by simp [hn])]

theorem c8_text_path_witness :
    isPdfName "notes.txt".toList = false ∧
    OpenAIService.process_file (fun _ => []) (fun _ => "summary".toList) [104, 105]
        "notes.txt".toList "other".toList
      = (some (openaiResult "notes.txt".toList "other".toList "summary".toList),
        [AiEv.openaiText]) :=
  ⟨rfl,
    (c8_text_path 50 id (fun _ => []) (fun _ => []) (fun _ => "summary".toList)
      [104, 105] "notes.txt".toList "other".toList rfl).1 ['h', 'i'] rfl⟩
